import Mathlib

/-!
Verification of the SWAPI fetch/process/filter/export pipeline.

The development shallowly embeds the two Python variants of the program
(`swapi_manager.py`, the paginating variant, and `main.py`, the
single-page variant).  Scalar JSON values are modelled by `Value`,
records by ordered association lists, pandas DataFrames by `Table`
(ordered column names plus rows of cells), the HTTP layer by an
abstract environment mapping URLs to page responses, and the manager
object by an explicit state record.
-/

set_option maxRecDepth 10000

/-- A scalar cell value: a JSON string, a number, or the missing value
(pandas NaN / JSON null). -/
inductive Value where
  | str (s : String)
  | num (n : Int)
  | null
  deriving DecidableEq, Repr

/-- A raw record as returned by the API: an ordered mapping from field
name to value (Python dicts preserve insertion order). -/
abbrev Record := List (String × Value)

/-- The field names of a record, in order. -/
def recKeys (r : Record) : List String := r.map Prod.fst

/-- Field lookup in a record (first binding wins, as in a dict). -/
def getField (r : Record) (k : String) : Option Value :=
  (r.find? (fun p => p.1 = k)).map Prod.snd

/-- A table, the embedding of a pandas DataFrame: an ordered list of
column names and rows of cells aligned with the columns. -/
structure Table where
  cols : List String
  rows : List (List Value)
  deriving DecidableEq, Repr

/-- Append the keys not yet seen, preserving first-appearance order. -/
def insKeys (acc : List String) (ks : List String) : List String :=
  ks.foldl (fun a k => if k ∈ a then a else a ++ [k]) acc

/-- Column inference of `pd.DataFrame(list_of_dicts)`: the union of all
record keys in order of first appearance, without duplicates. -/
def unionKeys (js : List Record) : List String :=
  js.foldl (fun acc r => insKeys acc (recKeys r)) []

/-- One materialized row of `pd.DataFrame(js)`: a record's value for each
inferred column, with `null` (NaN) filling the fields the record lacks. -/
def mkRow (cs : List String) (r : Record) : List Value :=
  cs.map (fun c => (getField r c).getD Value.null)

/-- `pd.DataFrame(js)` for a list of records. -/
def toDataFrame (js : List Record) : Table :=
  ⟨unionKeys js, js.map (mkRow (unionKeys js))⟩

/-- The cell of a row under column `c`, given the table's column list
(`null` when the column is absent). -/
def cellAt (cs : List String) (c : String) (row : List Value) : Value :=
  match (cs.zip row).find? (fun p => p.1 = c) with
  | some p => p.2
  | none => Value.null

/-- `df[c]`: the column of values under name `c`, or `none` (a Python
`KeyError`) when the column does not exist. -/
def Table.getCol (t : Table) (c : String) : Option (List Value) :=
  if c ∈ t.cols then some (t.rows.map (cellAt t.cols c)) else none

/-- The effect of `df[c] = series` on one row: replace the cell of an
existing column `c`, or append the new cell when `c` is a new column. -/
def setRowVal (cs : List String) (c : String) (row : List Value) (v : Value) : List Value :=
  if c ∈ cs then (cs.zip row).map (fun p => if p.1 = c then v else p.2)
  else row ++ [v]

/-- `df[c] = series` (row-aligned column assignment): overwrite column
`c` when present, otherwise append it as the last column. -/
def Table.setColVals (t : Table) (c : String) (vs : List Value) : Table :=
  if c ∈ t.cols then
    ⟨t.cols, (t.rows.zip vs).map (fun p => setRowVal t.cols c p.1 p.2)⟩
  else
    ⟨t.cols ++ [c], (t.rows.zip vs).map (fun p => p.1 ++ [p.2])⟩

/-- Decimal digit test on a character, by code point. -/
def isDigitChar (c : Char) : Bool :=
  Nat.ble 48 c.toNat && Nat.ble c.toNat 57

/-- Parse a nonempty all-digit character list as a natural number. -/
def digitsToNat (cs : List Char) : Option Nat :=
  if !cs.isEmpty && cs.all isDigitChar then
    some (cs.foldl (fun a c => a * 10 + (c.toNat - 48)) 0)
  else none

/-- Integer parsing of a string: an optional sign followed by digits.
This models the numeric-literal parsing `pd.to_numeric` performs on
strings, restricted to integer literals. -/
def parseIntStr (s : String) : Option Int :=
  match s.data with
  | [] => none
  | c :: cs =>
    if c = '-' then (digitsToNat cs).map (fun n => -(n : Int))
    else if c = '+' then (digitsToNat cs).map (fun n => (n : Int))
    else (digitsToNat (c :: cs)).map (fun n => (n : Int))

/-- `pd.to_numeric(v, errors='coerce')` on one cell: numbers pass
through, a string parses to its integer value or coerces to NaN, and
NaN stays NaN. -/
def toNumericVal : Value → Value
  | Value.num n => Value.num n
  | Value.null => Value.null
  | Value.str s =>
    match parseIntStr s with
    | some n => Value.num n
    | none => Value.null

/-- `PeopleProcessor.process`: build the DataFrame and add the derived
column via `df['full_name'] = df['name']`; `none` models the `KeyError`
raised when no record supplies a `name` column. -/
def peopleProcess (js : List Record) : Option Table :=
  let df := toDataFrame js
  match df.getCol "name" with
  | none => none
  | some vs => some (df.setColVals "full_name" vs)

/-- `PlanetsProcessor.process`: build the DataFrame and coerce the
population column via `df['population'] = pd.to_numeric(df['population'],
errors='coerce')`; `none` models the `KeyError` when the column is absent. -/
def planetsProcess (js : List Record) : Option Table :=
  let df := toDataFrame js
  match df.getCol "population" with
  | none => none
  | some vs => some (df.setColVals "population" (vs.map toNumericVal))

/-- `FilmsProcessor.process` of `swapi_manager.py`:
`df['film_titles'] = df['title']`. -/
def filmsProcess (js : List Record) : Option Table :=
  let df := toDataFrame js
  match df.getCol "title" with
  | none => none
  | some vs => some (df.setColVals "film_titles" vs)

/-- `FilmsProcessor.process` of `main.py`: same but the derived column
is named `film_title`. -/
def filmsProcessMain (js : List Record) : Option Table :=
  let df := toDataFrame js
  match df.getCol "title" with
  | none => none
  | some vs => some (df.setColVals "film_title" vs)

example : peopleProcess [[("name", Value.str "Luke")]] =
    some ⟨["name", "full_name"], [[Value.str "Luke", Value.str "Luke"]]⟩ := by decide

example : planetsProcess
    [[("population", Value.str "1000")], [("population", Value.str "unknown")],
     [("population", Value.str "42")]] =
    some ⟨["population"], [[Value.num 1000], [Value.null], [Value.num 42]]⟩ := by decide

example : peopleProcess [[("name", Value.str "Luke")], [("foo", Value.str "x")]] =
    some ⟨["name", "foo", "full_name"],
      [[Value.str "Luke", Value.null, Value.str "Luke"],
       [Value.null, Value.str "x", Value.null]]⟩ := by decide

example : peopleProcess [] = none := by decide

/-- The tagged set of processors the program registers
(`PeopleProcessor`, `PlanetsProcessor`, and the two revisions of
`FilmsProcessor`). -/
inductive ProcKind where
  | people
  | planets
  | films
  | filmsMain
  deriving DecidableEq, Repr

/-- Dispatch a processor tag to its `process` method. -/
def runProc : ProcKind → List Record → Option Table
  | ProcKind.people, js => peopleProcess js
  | ProcKind.planets, js => planetsProcess js
  | ProcKind.films, js => filmsProcess js
  | ProcKind.filmsMain, js => filmsProcessMain js

/-- What one HTTP GET of a page URL yields: a transport failure or
non-2xx status, or a JSON body with a `results` array and an optional
`next` URL. -/
inductive PageResponse where
  | failure
  | page (results : List Record) (next : Option String)
  deriving DecidableEq, Repr

/-- The remote API, abstracted as a mapping from URL to response. -/
abbrev Env := String → PageResponse

/-- The exceptions the pipeline can raise: `requests` HTTP errors
(`raise_for_status`), pandas `KeyError`s, and `main.py`'s `ValueError`
for an unregistered processor.  `outOfFuel` is an artifact of bounding
the pagination loop; theorems always supply enough fuel. -/
inductive Err where
  | network
  | keyError
  | unregistered
  | outOfFuel
  deriving DecidableEq, Repr

/-- The `while url:` pagination loop of `SWAPIClient.fetch_json` in
`swapi_manager.py`: GET the current URL, raise on failure, extend the
accumulator with `results`, continue at `data.get('next')`. -/
def fetchJsonAux (env : Env) (fuel : Nat) (url : Option String) (acc : List Record) :
    Except Err (List Record) :=
  match url with
  | none => Except.ok acc
  | some u =>
    match fuel with
    | 0 => Except.error Err.outOfFuel
    | Nat.succ f =>
      match env u with
      | PageResponse.failure => Except.error Err.network
      | PageResponse.page rs next => fetchJsonAux env f next (acc ++ rs)

/-- `SWAPIClient.fetch_json` of `swapi_manager.py`: start at
`base_url + endpoint` with an empty accumulator. -/
def fetch_json (env : Env) (fuel : Nat) (baseUrl endpoint : String) : Except Err (List Record) :=
  fetchJsonAux env fuel (some (baseUrl ++ endpoint)) []

/-- `SWAPIClient.fetch_json` of `main.py`: a single GET of
`f"{base_url}/{endpoint}/"`, returning that one response's `results`. -/
def fetch_json_main (env : Env) (baseUrl endpoint : String) : Except Err (List Record) :=
  match env (baseUrl ++ "/" ++ endpoint ++ "/") with
  | PageResponse.failure => Except.error Err.network
  | PageResponse.page rs _ => Except.ok rs

/-- Lookup in an insertion-ordered dict modelled as an association list. -/
def lookupA {α : Type} (l : List (String × α)) (k : String) : Option α :=
  (l.find? (fun p => p.1 = k)).map Prod.snd

/-- Assignment `d[k] = v` on an insertion-ordered dict: replace the
value in place when the key exists, else append the new entry. -/
def setA {α : Type} (l : List (String × α)) (k : String) (v : α) : List (String × α) :=
  if k ∈ l.map Prod.fst then l.map (fun p => if p.1 = k then (k, v) else p)
  else l ++ [(k, v)]

/-- The state of a `SWAPIDataManager`: the client's base URL, the
`data` dict of entity tables, and the `processors` registry, both in
insertion order. -/
structure ManagerState where
  baseUrl : String
  data : List (String × Table)
  processors : List (String × ProcKind)
  deriving DecidableEq, Repr

/-- `SWAPIDataManager.register_processor`. -/
def register_processor (st : ManagerState) (endpoint : String) (k : ProcKind) : ManagerState :=
  { st with processors := setA st.processors endpoint k }

/-- `SWAPIDataManager.fetch_entity` of `swapi_manager.py`: fetch the
pages first, then look the processor up; when none is registered the
method silently returns.  The returned state is the manager after the
call, whether it raised (first component `Except.error`) or returned
normally. -/
def fetch_entity (env : Env) (fuel : Nat) (st : ManagerState) (endpoint : String) :
    Except Err Unit × ManagerState :=
  match fetch_json env fuel st.baseUrl endpoint with
  | Except.error e => (Except.error e, st)
  | Except.ok js =>
    match lookupA st.processors endpoint with
    | none => (Except.ok (), st)
    | some k =>
      match runProc k js with
      | none => (Except.error Err.keyError, st)
      | some t => (Except.ok (), { st with data := setA st.data endpoint t })

/-- `SWAPIDataManager.fetch_entity` of `main.py`: raise `ValueError`
when no processor is registered, before any network request; otherwise
fetch one page and store the processed table. -/
def fetch_entity_main (env : Env) (st : ManagerState) (endpoint : String) :
    Except Err Unit × ManagerState :=
  match lookupA st.processors endpoint with
  | none => (Except.error Err.unregistered, st)
  | some k =>
    match fetch_json_main env st.baseUrl endpoint with
    | Except.error e => (Except.error e, st)
    | Except.ok js =>
      match runProc k js with
      | none => (Except.error Err.keyError, st)
      | some t => (Except.ok (), { st with data := setA st.data endpoint t })

/-- `df.drop(columns=cs, inplace=True)` with the default
`errors='raise'`: pandas first resolves every label against the column
axis, raising `KeyError` if any is missing, and only then installs the
reduced table.  On success the listed columns disappear from the
column list and from every row, the rest keeping their order and
values. -/
def Table.dropCols (t : Table) (cs : List String) : Except Err Table :=
  if cs.all (fun c => c ∈ t.cols) then
    Except.ok ⟨t.cols.filter (fun c => c ∉ cs),
      t.rows.map (fun row => ((t.cols.zip row).filter (fun p => p.1 ∉ cs)).map Prod.snd)⟩
  else Except.error Err.keyError

/-- `SWAPIDataManager.apply_filter`: when the endpoint has a stored
table, drop the listed columns in place; otherwise do nothing.  The
second component is the manager state after the call. -/
def apply_filter (st : ManagerState) (endpoint : String) (cs : List String) :
    Except Err Unit × ManagerState :=
  match lookupA st.data endpoint with
  | none => (Except.ok (), st)
  | some t =>
    match t.dropCols cs with
    | Except.error e => (Except.error e, st)
    | Except.ok t2 => (Except.ok (), { st with data := setA st.data endpoint t2 })

/-- One worksheet of the produced workbook. -/
structure Sheet where
  sheetName : String
  header : List String
  body : List (List Value)
  deriving DecidableEq, Repr

/-- Python `str.capitalize()`: first character uppercased, the rest
lowercased. -/
def pyCapitalize (s : String) : String :=
  match s.data with
  | [] => ""
  | c :: cs => String.mk (c.toUpper :: cs.map Char.toLower)

/-- `SWAPIDataManager.save_to_excel` of `swapi_manager.py`: one sheet
per `data` entry in dict (insertion) order, named
`endpoint.capitalize()`; `df.to_excel(..., index=False)` writes the
column names as the first row and then the rows in table order. -/
def save_to_excel (st : ManagerState) : List Sheet :=
  st.data.map (fun p => ⟨pyCapitalize p.1, p.2.cols, p.2.rows⟩)

/-- `SWAPIDataManager.save_to_excel` of `main.py`: identical except the
sheet keeps the endpoint name's original casing. -/
def save_to_excel_main (st : ManagerState) : List Sheet :=
  st.data.map (fun p => ⟨p.1, p.2.cols, p.2.rows⟩)

/-- A terminating pagination chain in environment `env` starting at a
URL: each page's `results`, linked by `next`, ending at a page whose
`next` is null/absent. -/
inductive Chain (env : Env) : String → List (List Record) → Prop where
  | last (u : String) (rs : List Record) : env u = PageResponse.page rs none → Chain env u [rs]
  | step (u u2 : String) (rs : List Record) (pss : List (List Record)) :
      env u = PageResponse.page rs (some u2) → Chain env u2 pss → Chain env u (rs :: pss)

/-- A pagination chain that reaches a failing page after `n` successful
pages. -/
inductive FailChain (env : Env) : String → Nat → Prop where
  | here (u : String) : env u = PageResponse.failure → FailChain env u 0
  | step (u u2 : String) (rs : List Record) (n : Nat) :
      env u = PageResponse.page rs (some u2) → FailChain env u2 n → FailChain env u (n + 1)

/-- The manager states reachable from a fresh manager by the program's
operations (registration, fetching, filtering). -/
inductive Reachable (env : Env) : ManagerState → Prop where
  | init (base : String) : Reachable env ⟨base, [], []⟩
  | register (st : ManagerState) (ep : String) (k : ProcKind) :
      Reachable env st → Reachable env (register_processor st ep k)
  | fetch (st : ManagerState) (fuel : Nat) (ep : String) :
      Reachable env st → Reachable env (fetch_entity env fuel st ep).2
  | filt (st : ManagerState) (ep : String) (cs : List String) :
      Reachable env st → Reachable env (apply_filter st ep cs).2

/-- A table is well formed when every row has one cell per column.
Every table the program builds satisfies this. -/
def Table.WF (t : Table) : Prop :=
  ∀ row ∈ t.rows, row.length = t.cols.length

instance (t : Table) : Decidable t.WF :=
  inferInstanceAs (Decidable (∀ row ∈ t.rows, row.length = t.cols.length))

/-- The row each processor produces from one input record, given the
inferred column list: the record's cells with the processor's one
derived or coerced column applied. -/
def procRowFn : ProcKind → List String → Record → List Value
  | ProcKind.people, cs, r =>
    setRowVal cs "full_name" (mkRow cs r) ((getField r "name").getD Value.null)
  | ProcKind.planets, cs, r =>
    setRowVal cs "population" (mkRow cs r) (toNumericVal ((getField r "population").getD Value.null))
  | ProcKind.films, cs, r =>
    setRowVal cs "film_titles" (mkRow cs r) ((getField r "title").getD Value.null)
  | ProcKind.filmsMain, cs, r =>
    setRowVal cs "film_title" (mkRow cs r) ((getField r "title").getD Value.null)

theorem mem_insKeys (x : String) (ks : List String) :
    ∀ acc : List String, x ∈ insKeys acc ks ↔ x ∈ acc ∨ x ∈ ks := by
  induction ks with
  | nil => intro acc; simp [insKeys]
  | cons k ks ih =>
    intro acc
    show x ∈ insKeys (if k ∈ acc then acc else acc ++ [k]) ks ↔ _
    rw [ih]
    by_cases hk : k ∈ acc
    · simp only [if_pos hk, List.mem_cons]
      constructor
      · rintro (h | h)
        · exact Or.inl h
        · exact Or.inr (Or.inr h)
      · rintro (h | h | h)
        · exact Or.inl h
        · exact Or.inl (h ▸ hk)
        · exact Or.inr h
    · simp only [if_neg hk, List.mem_append, List.mem_singleton, List.mem_cons]
      tauto

theorem mem_unionKeys_aux (x : String) (js : List Record) :
    ∀ acc : List String,
      x ∈ js.foldl (fun acc r => insKeys acc (recKeys r)) acc ↔
        x ∈ acc ∨ ∃ r ∈ js, x ∈ recKeys r := by
  induction js with
  | nil => intro acc; simp
  | cons r js ih =>
    intro acc
    show x ∈ js.foldl _ (insKeys acc (recKeys r)) ↔ _
    rw [ih, mem_insKeys]
    simp only [List.mem_cons]
    constructor
    · rintro ((h | h) | ⟨r2, hr2, hx⟩)
      · exact Or.inl h
      · exact Or.inr ⟨r, Or.inl rfl, h⟩
      · exact Or.inr ⟨r2, Or.inr hr2, hx⟩
    · rintro (h | ⟨r2, h | hr2, hx⟩)
      · exact Or.inl (Or.inl h)
      · exact Or.inl (Or.inr (h ▸ hx))
      · exact Or.inr ⟨r2, hr2, hx⟩

theorem mem_unionKeys (x : String) (js : List Record) :
    x ∈ unionKeys js ↔ ∃ r ∈ js, x ∈ recKeys r := by
  rw [unionKeys, mem_unionKeys_aux]
  simp

theorem mem_unionKeys_of {k : String} {r : Record} {js : List Record}
    (hr : r ∈ js) (hk : k ∈ recKeys r) : k ∈ unionKeys js :=
  (mem_unionKeys k js).2 ⟨r, hr, hk⟩

theorem cellAt_nil_left (c : String) (row : List Value) : cellAt [] c row = Value.null := by
  simp [cellAt]

theorem cellAt_nil_right (cs : List String) (c : String) : cellAt cs c [] = Value.null := by
  simp [cellAt]

theorem cellAt_cons (x c : String) (v : Value) (cs : List String) (row : List Value) :
    cellAt (x :: cs) c (v :: row) = if x = c then v else cellAt cs c row := by
  by_cases h : x = c
  · simp [cellAt, List.find?, h]
  · unfold cellAt
    rw [List.zip_cons_cons, List.find?_cons_of_neg]
    all_goals simp [h]

theorem mkRow_length (cs : List String) (r : Record) : (mkRow cs r).length = cs.length := by
  simp [mkRow]

theorem cellAt_mkRow {c : String} {cs : List String} (r : Record) (h : c ∈ cs) :
    cellAt cs c (mkRow cs r) = (getField r c).getD Value.null := by
  induction cs with
  | nil => cases h
  | cons x cs ih =>
    show cellAt (x :: cs) c ((getField r x).getD Value.null :: mkRow cs r) = _
    rw [cellAt_cons]
    by_cases hx : x = c
    · rw [if_pos hx, hx]
    · rw [if_neg hx]
      exact ih ((List.mem_cons.mp h).resolve_left (fun he => hx he.symm))

theorem cellAt_mkRow_notMem {c : String} {cs : List String} (r : Record) (h : c ∉ cs) :
    cellAt cs c (mkRow cs r) = Value.null := by
  induction cs with
  | nil => exact cellAt_nil_left c _
  | cons x cs ih =>
    show cellAt (x :: cs) c ((getField r x).getD Value.null :: mkRow cs r) = _
    rw [cellAt_cons, if_neg (fun hx => h (by rw [← hx]; exact List.mem_cons_self x cs))]
    exact ih (fun hc => h (List.mem_cons_of_mem x hc))

theorem cellAt_map_self {k : String} {cs : List String} (f : String → Value) (hk : k ∈ cs) :
    cellAt cs k (cs.map f) = f k := by
  induction cs with
  | nil => cases hk
  | cons x cs ih =>
    show cellAt (x :: cs) k (f x :: cs.map f) = f k
    rw [cellAt_cons]
    by_cases hx : x = k
    · rw [if_pos hx, hx]
    · rw [if_neg hx]
      exact ih ((List.mem_cons.mp hk).resolve_left (fun he => hx he.symm))

theorem setColVals_cols (t : Table) (c : String) (vs : List Value) :
    (t.setColVals c vs).cols = if c ∈ t.cols then t.cols else t.cols ++ [c] := by
  unfold Table.setColVals
  split <;> rfl

theorem setColVals_rows (t : Table) (c : String) (vs : List Value) :
    (t.setColVals c vs).rows = (t.rows.zip vs).map (fun p => setRowVal t.cols c p.1 p.2) := by
  unfold Table.setColVals
  split
  · rfl
  · rename_i h
    show _ = (t.rows.zip vs).map _
    apply List.map_congr_left
    intro p _
    rw [setRowVal, if_neg h]

theorem getCol_toDataFrame {c : String} {js : List Record} (h : c ∈ unionKeys js) :
    (toDataFrame js).getCol c = some (js.map (fun r => (getField r c).getD Value.null)) := by
  unfold Table.getCol toDataFrame
  rw [if_pos h, List.map_map]
  congr 1
  apply List.map_congr_left
  intro r _
  exact cellAt_mkRow r h

theorem getCol_toDataFrame_none {c : String} {js : List Record} (h : c ∉ unionKeys js) :
    (toDataFrame js).getCol c = none := by
  unfold Table.getCol toDataFrame
  rw [if_neg h]

theorem setColVals_toDataFrame_rows (js : List Record) (c : String) (g : Record → Value) :
    ((toDataFrame js).setColVals c (js.map g)).rows =
      js.map (fun r => setRowVal (unionKeys js) c (mkRow (unionKeys js) r) (g r)) := by
  rw [setColVals_rows]
  show ((js.map (mkRow (unionKeys js))).zip (js.map g)).map _ = _
  rw [List.zip_map', List.map_map]
  rfl

theorem cellAt_append_mem {k : String} {cs : List String} (f : String → Value)
    (fn : String) (v : Value) (hk : k ∈ cs) :
    cellAt (cs ++ [fn]) k (cs.map f ++ [v]) = f k := by
  induction cs with
  | nil => cases hk
  | cons x cs ih =>
    show cellAt (x :: (cs ++ [fn])) k (f x :: (cs.map f ++ [v])) = f k
    rw [cellAt_cons]
    by_cases hx : x = k
    · rw [if_pos hx, hx]
    · rw [if_neg hx]
      exact ih ((List.mem_cons.mp hk).resolve_left (fun he => hx he.symm))

theorem cellAt_append_last {fn : String} {cs : List String} (f : String → Value)
    (v : Value) (hfn : fn ∉ cs) :
    cellAt (cs ++ [fn]) fn (cs.map f ++ [v]) = v := by
  induction cs with
  | nil =>
    show cellAt [fn] fn [v] = v
    rw [show ([fn] : List String) = fn :: [] from rfl, show ([v] : List Value) = v :: [] from rfl,
      cellAt_cons, if_pos rfl]
  | cons x cs ih =>
    show cellAt (x :: (cs ++ [fn])) fn (f x :: (cs.map f ++ [v])) = v
    rw [cellAt_cons, if_neg (fun hx => hfn (by rw [← hx]; exact List.mem_cons_self x cs))]
    exact ih (fun hc => hfn (List.mem_cons_of_mem x hc))

theorem cellAt_setRowVal (cs : List String) (f : String → Value) (fn k : String) (v : Value)
    (hk : k ∈ cs ∨ k = fn) :
    cellAt (if fn ∈ cs then cs else cs ++ [fn]) k (setRowVal cs fn (cs.map f) v) =
      if k = fn then v else f k := by
  by_cases hfn : fn ∈ cs
  · rw [if_pos hfn, setRowVal, if_pos hfn]
    have hzip : (cs.zip (cs.map f)).map (fun p => if p.1 = fn then v else p.2) =
        cs.map (fun c => if c = fn then v else f c) := by
      have h1 : cs.zip (cs.map f) = cs.map (fun c => (c, f c)) := by
        have := List.zip_map' (fun c : String => c) f cs
        simpa using this
      rw [h1, List.map_map]
      rfl
    rw [hzip]
    have hkcs : k ∈ cs := by
      rcases hk with h | h
      · exact h
      · exact h ▸ hfn
    rw [cellAt_map_self _ hkcs]
  · rw [if_neg hfn, setRowVal, if_neg hfn]
    by_cases hkf : k = fn
    · rw [if_pos hkf, hkf]
      exact cellAt_append_last f v hfn
    · rw [if_neg hkf]
      have hkcs : k ∈ cs := hk.resolve_right hkf
      exact cellAt_append_mem f fn v hkcs

theorem peopleProcess_eq {js : List Record} (h : "name" ∈ unionKeys js) :
    peopleProcess js = some ((toDataFrame js).setColVals "full_name"
      (js.map (fun r => (getField r "name").getD Value.null))) := by
  show (match (toDataFrame js).getCol "name" with
    | none => none
    | some vs => some ((toDataFrame js).setColVals "full_name" vs)) = _
  rw [getCol_toDataFrame h]

theorem peopleProcess_eq_none {js : List Record} (h : "name" ∉ unionKeys js) :
    peopleProcess js = none := by
  show (match (toDataFrame js).getCol "name" with
    | none => none
    | some vs => some ((toDataFrame js).setColVals "full_name" vs)) = _
  rw [getCol_toDataFrame_none h]

theorem planetsProcess_eq {js : List Record} (h : "population" ∈ unionKeys js) :
    planetsProcess js = some ((toDataFrame js).setColVals "population"
      (js.map (fun r => toNumericVal ((getField r "population").getD Value.null)))) := by
  show (match (toDataFrame js).getCol "population" with
    | none => none
    | some vs => some ((toDataFrame js).setColVals "population" (vs.map toNumericVal))) = _
  rw [getCol_toDataFrame h]
  show some _ = _
  rw [List.map_map]
  rfl

theorem planetsProcess_eq_none {js : List Record} (h : "population" ∉ unionKeys js) :
    planetsProcess js = none := by
  show (match (toDataFrame js).getCol "population" with
    | none => none
    | some vs => some ((toDataFrame js).setColVals "population" (vs.map toNumericVal))) = _
  rw [getCol_toDataFrame_none h]

theorem filmsProcess_eq {js : List Record} (h : "title" ∈ unionKeys js) :
    filmsProcess js = some ((toDataFrame js).setColVals "film_titles"
      (js.map (fun r => (getField r "title").getD Value.null))) := by
  show (match (toDataFrame js).getCol "title" with
    | none => none
    | some vs => some ((toDataFrame js).setColVals "film_titles" vs)) = _
  rw [getCol_toDataFrame h]

theorem filmsProcess_eq_none {js : List Record} (h : "title" ∉ unionKeys js) :
    filmsProcess js = none := by
  show (match (toDataFrame js).getCol "title" with
    | none => none
    | some vs => some ((toDataFrame js).setColVals "film_titles" vs)) = _
  rw [getCol_toDataFrame_none h]

theorem filmsProcessMain_eq {js : List Record} (h : "title" ∈ unionKeys js) :
    filmsProcessMain js = some ((toDataFrame js).setColVals "film_title"
      (js.map (fun r => (getField r "title").getD Value.null))) := by
  show (match (toDataFrame js).getCol "title" with
    | none => none
    | some vs => some ((toDataFrame js).setColVals "film_title" vs)) = _
  rw [getCol_toDataFrame h]

theorem filmsProcessMain_eq_none {js : List Record} (h : "title" ∉ unionKeys js) :
    filmsProcessMain js = none := by
  show (match (toDataFrame js).getCol "title" with
    | none => none
    | some vs => some ((toDataFrame js).setColVals "film_title" vs)) = _
  rw [getCol_toDataFrame_none h]

theorem getCol_process_col (js : List Record) (c : String) (g : Record → Value)
    (h : c ∈ unionKeys js) :
    ((toDataFrame js).setColVals c (js.map g)).getCol c = some (js.map g) := by
  unfold Table.getCol
  have hcols : ((toDataFrame js).setColVals c (js.map g)).cols = unionKeys js := by
    rw [setColVals_cols]
    show (if c ∈ unionKeys js then unionKeys js else unionKeys js ++ [c]) = _
    rw [if_pos h]
  rw [hcols, if_pos h, setColVals_toDataFrame_rows, List.map_map]
  congr 1
  apply List.map_congr_left
  intro r _
  show cellAt (unionKeys js) c (setRowVal (unionKeys js) c (mkRow (unionKeys js) r) (g r)) = g r
  have hm := cellAt_setRowVal (unionKeys js) (fun x => (getField r x).getD Value.null) c c (g r)
    (Or.inr rfl)
  rw [if_pos h, if_pos rfl] at hm
  exact hm

theorem fetchJsonAux_chain {env : Env} {u : String} {pss : List (List Record)}
    (hch : Chain env u pss) :
    ∀ (fuel : Nat) (acc : List Record), pss.length ≤ fuel →
      fetchJsonAux env fuel (some u) acc = Except.ok (acc ++ pss.flatten) := by
  induction hch with
  | last u rs henv =>
    intro fuel acc hle
    cases fuel with
    | zero => exact absurd hle (by simp)
    | succ f =>
      rw [fetchJsonAux]
      show (match env u with
        | PageResponse.failure => Except.error Err.network
        | PageResponse.page rs next => fetchJsonAux env f next (acc ++ rs)) = _
      rw [henv]
      show fetchJsonAux env f none (acc ++ rs) = _
      rw [fetchJsonAux]
      simp
  | step u u2 rs pss henv _ ih =>
    intro fuel acc hle
    cases fuel with
    | zero => exact absurd hle (by simp)
    | succ f =>
      rw [fetchJsonAux]
      show (match env u with
        | PageResponse.failure => Except.error Err.network
        | PageResponse.page rs next => fetchJsonAux env f next (acc ++ rs)) = _
      rw [henv]
      show fetchJsonAux env f (some u2) (acc ++ rs) = _
      rw [ih f (acc ++ rs) (Nat.le_of_succ_le_succ hle)]
      simp

theorem fetchJsonAux_fail {env : Env} {u : String} {n : Nat}
    (hch : FailChain env u n) :
    ∀ (fuel : Nat) (acc : List Record), n < fuel →
      fetchJsonAux env fuel (some u) acc = Except.error Err.network := by
  induction hch with
  | here u henv =>
    intro fuel acc hlt
    cases fuel with
    | zero => exact absurd hlt (by simp)
    | succ f =>
      rw [fetchJsonAux]
      show (match env u with
        | PageResponse.failure => Except.error Err.network
        | PageResponse.page rs next => fetchJsonAux env f next (acc ++ rs)) = _
      rw [henv]
  | step u u2 rs n henv _ ih =>
    intro fuel acc hlt
    cases fuel with
    | zero => exact absurd hlt (by simp)
    | succ f =>
      rw [fetchJsonAux]
      show (match env u with
        | PageResponse.failure => Except.error Err.network
        | PageResponse.page rs next => fetchJsonAux env f next (acc ++ rs)) = _
      rw [henv]
      show fetchJsonAux env f (some u2) (acc ++ rs) = _
      exact ih f (acc ++ rs) (Nat.lt_of_succ_lt_succ hlt)

theorem fetch_json_chain {env : Env} {base ep : String} {pss : List (List Record)}
    {fuel : Nat} (hch : Chain env (base ++ ep) pss) (hle : pss.length ≤ fuel) :
    fetch_json env fuel base ep = Except.ok pss.flatten := by
  unfold fetch_json
  rw [fetchJsonAux_chain hch fuel [] hle]
  simp

theorem fetch_json_fail {env : Env} {base ep : String} {n fuel : Nat}
    (hch : FailChain env (base ++ ep) n) (hlt : n < fuel) :
    fetch_json env fuel base ep = Except.error Err.network := by
  unfold fetch_json
  exact fetchJsonAux_fail hch fuel [] hlt

theorem keys_setA_of_mem {α : Type} {l : List (String × α)} {k : String} (v : α)
    (h : k ∈ l.map Prod.fst) : (setA l k v).map Prod.fst = l.map Prod.fst := by
  unfold setA
  rw [if_pos h, List.map_map]
  apply List.map_congr_left
  intro p _
  by_cases hp : p.1 = k
  · show ((if p.1 = k then (k, v) else p) : String × α).1 = p.1
    rw [if_pos hp, hp]
  · show ((if p.1 = k then (k, v) else p) : String × α).1 = p.1
    rw [if_neg hp]

theorem setA_of_notMem {α : Type} {l : List (String × α)} {k : String} (v : α)
    (h : k ∉ l.map Prod.fst) : setA l k v = l ++ [(k, v)] := by
  unfold setA
  rw [if_neg h]

theorem lookupA_cons_of_pos {α : Type} {p : String × α} {l : List (String × α)} {k : String}
    (h : p.1 = k) : lookupA (p :: l) k = some p.2 := by
  unfold lookupA
  rw [List.find?_cons_of_pos _ (by simp [h])]
  rfl

theorem lookupA_cons_of_neg {α : Type} {p : String × α} {l : List (String × α)} {k : String}
    (h : ¬p.1 = k) : lookupA (p :: l) k = lookupA l k := by
  unfold lookupA
  rw [List.find?_cons_of_neg _ (by simp [h])]

theorem lookupA_mapSet {α : Type} {l : List (String × α)} {k : String} (v : α)
    (h : k ∈ l.map Prod.fst) :
    lookupA (l.map (fun p => if p.1 = k then (k, v) else p)) k = some v := by
  induction l with
  | nil => cases h
  | cons p l ih =>
    rw [List.map_cons]
    by_cases hp : p.1 = k
    · rw [if_pos hp, lookupA_cons_of_pos rfl]
    · rw [if_neg hp, lookupA_cons_of_neg hp]
      apply ih
      rw [List.map_cons] at h
      rcases List.mem_cons.mp h with h1 | h1
      · exact absurd h1.symm hp
      · exact h1

theorem lookupA_mapSet_ne {α : Type} {l : List (String × α)} {k k2 : String} (v : α)
    (h : k2 ≠ k) :
    lookupA (l.map (fun p => if p.1 = k then (k, v) else p)) k2 = lookupA l k2 := by
  induction l with
  | nil => rfl
  | cons p l ih =>
    rw [List.map_cons]
    by_cases hp : p.1 = k
    · rw [if_pos hp,
        lookupA_cons_of_neg (show ¬((k, v) : String × α).1 = k2 from fun he => h he.symm),
        lookupA_cons_of_neg (show ¬p.1 = k2 from fun he => h (hp.symm.trans he).symm)]
      exact ih
    · rw [if_neg hp]
      by_cases hp2 : p.1 = k2
      · rw [lookupA_cons_of_pos hp2, lookupA_cons_of_pos hp2]
      · rw [lookupA_cons_of_neg hp2, lookupA_cons_of_neg hp2]
        exact ih

theorem lookupA_append_single_ne {α : Type} {l : List (String × α)} {k k2 : String} (v : α)
    (h : k2 ≠ k) : lookupA (l ++ [(k, v)]) k2 = lookupA l k2 := by
  induction l with
  | nil =>
    show lookupA (((k, v) : String × α) :: []) k2 = _
    rw [lookupA_cons_of_neg (show ¬(k : String) = k2 from fun he => h he.symm)]
  | cons p l ih =>
    show lookupA (p :: (l ++ [(k, v)])) k2 = _
    by_cases hp : p.1 = k2
    · rw [lookupA_cons_of_pos hp, lookupA_cons_of_pos hp]
    · rw [lookupA_cons_of_neg hp, lookupA_cons_of_neg hp]
      exact ih

theorem lookupA_append_single_self {α : Type} {l : List (String × α)} {k : String} (v : α)
    (h : k ∉ l.map Prod.fst) : lookupA (l ++ [(k, v)]) k = some v := by
  induction l with
  | nil =>
    show lookupA (((k, v) : String × α) :: []) k = _
    rw [lookupA_cons_of_pos rfl]
  | cons p l ih =>
    have hp : ¬p.1 = k := fun he => h (by simp [he])
    show lookupA (p :: (l ++ [(k, v)])) k = _
    rw [lookupA_cons_of_neg hp]
    exact ih (fun hm => h (by simp [hm]))

theorem lookupA_setA_self {α : Type} (l : List (String × α)) (k : String) (v : α) :
    lookupA (setA l k v) k = some v := by
  by_cases h : k ∈ l.map Prod.fst
  · unfold setA
    rw [if_pos h]
    exact lookupA_mapSet v h
  · rw [setA_of_notMem v h]
    exact lookupA_append_single_self v h

theorem lookupA_setA_ne {α : Type} {l : List (String × α)} {k k2 : String} (v : α)
    (h : k2 ≠ k) : lookupA (setA l k v) k2 = lookupA l k2 := by
  unfold setA
  split
  · exact lookupA_mapSet_ne v h
  · exact lookupA_append_single_ne v h

theorem keys_setA_nodup {α : Type} {l : List (String × α)} (k : String) (v : α)
    (h : (l.map Prod.fst).Nodup) : ((setA l k v).map Prod.fst).Nodup := by
  by_cases hm : k ∈ l.map Prod.fst
  · rw [keys_setA_of_mem v hm]
    exact h
  · rw [setA_of_notMem v hm, List.map_append]
    simp only [List.map_cons, List.map_nil]
    rw [List.nodup_append]
    exact ⟨h, List.nodup_singleton k, by
      intro a ha hb
      rw [List.mem_singleton] at hb
      exact hm (hb ▸ ha)⟩

theorem fetch_entity_data (env : Env) (fuel : Nat) (st : ManagerState) (ep : String) :
    (fetch_entity env fuel st ep).2.data = st.data ∨
      ∃ t, (fetch_entity env fuel st ep).2.data = setA st.data ep t := by
  unfold fetch_entity
  split
  · left; rfl
  · split
    · left; rfl
    · split
      · left; rfl
      · right; exact ⟨_, rfl⟩

theorem apply_filter_data (st : ManagerState) (ep : String) (cs : List String) :
    (apply_filter st ep cs).2.data = st.data ∨
      ∃ t, (apply_filter st ep cs).2.data = setA st.data ep t := by
  unfold apply_filter
  split
  · left; rfl
  · split
    · left; rfl
    · right; exact ⟨_, rfl⟩

theorem reachable_nodup {env : Env} {st : ManagerState} (h : Reachable env st) :
    (st.data.map Prod.fst).Nodup := by
  induction h with
  | init base => simp
  | register st ep k _ ih => exact ih
  | fetch st fuel ep _ ih =>
    rcases fetch_entity_data env fuel st ep with hd | ⟨t, hd⟩
    · rw [hd]; exact ih
    · rw [hd]; exact keys_setA_nodup ep t ih
  | filt st ep cs _ ih =>
    rcases apply_filter_data st ep cs with hd | ⟨t, hd⟩
    · rw [hd]; exact ih
    · rw [hd]; exact keys_setA_nodup ep t ih

theorem fetch_entity_unreg (env : Env) (fuel : Nat) (st : ManagerState) (ep : String)
    (h : lookupA st.processors ep = none) :
    (fetch_entity env fuel st ep).2 = st ∧
      ∀ js, fetch_json env fuel st.baseUrl ep = Except.ok js →
        fetch_entity env fuel st ep = (Except.ok (), st) := by
  constructor
  · unfold fetch_entity
    split
    · rfl
    · rw [h]
  · intro js hjs
    unfold fetch_entity
    rw [hjs, h]

theorem fetch_entity_main_unreg (env : Env) (st : ManagerState) (ep : String)
    (h : lookupA st.processors ep = none) :
    fetch_entity_main env st ep = (Except.error Err.unregistered, st) := by
  unfold fetch_entity_main
  rw [h]

theorem fetch_entity_network (env : Env) (fuel : Nat) (st : ManagerState) (ep : String)
    (h : fetch_json env fuel st.baseUrl ep = Except.error Err.network) :
    fetch_entity env fuel st ep = (Except.error Err.network, st) := by
  unfold fetch_entity
  rw [h]

theorem apply_filter_error_snd (st : ManagerState) (ep : String) (cs : List String)
    (e : Err) (h : (apply_filter st ep cs).1 = Except.error e) :
    (apply_filter st ep cs).2 = st := by
  unfold apply_filter at *
  split at h
  · simp at h
  · split at h
    · rfl
    · simp at h

theorem cellAt_dropRow {ds : List String} {c : String} (hc : c ∉ ds) :
    ∀ (cs : List String) (row : List Value), row.length = cs.length →
      cellAt (cs.filter (fun x => x ∉ ds)) c
        (((cs.zip row).filter (fun p => p.1 ∉ ds)).map Prod.snd) = cellAt cs c row := by
  intro cs
  induction cs with
  | nil =>
    intro row _
    rfl
  | cons x cs ih =>
    intro row h
    cases row with
    | nil => simp at h
    | cons v row =>
      rw [List.length_cons, List.length_cons, Nat.succ_inj] at h
      rw [List.zip_cons_cons, List.filter_cons, List.filter_cons]
      by_cases hx : x ∈ ds
      · rw [if_neg (by simp [hx]), if_neg (by simp [hx])]
        rw [cellAt_cons, if_neg (fun he => hc (by rw [← he]; exact hx))]
        exact ih row h
      · rw [if_pos (by simp [hx]), if_pos (by simp [hx])]
        rw [List.map_cons]
        show cellAt (x :: _) c (v :: _) = cellAt (x :: cs) c (v :: row)
        rw [cellAt_cons, cellAt_cons]
        by_cases hxc : x = c
        · rw [if_pos hxc, if_pos hxc]
        · rw [if_neg hxc, if_neg hxc]
          exact ih row h

theorem dropRow_length {ds : List String} :
    ∀ (cs : List String) (row : List Value), row.length = cs.length →
      (((cs.zip row).filter (fun p => p.1 ∉ ds)).map Prod.snd).length =
        (cs.filter (fun x => x ∉ ds)).length := by
  intro cs
  induction cs with
  | nil =>
    intro row _
    rfl
  | cons x cs ih =>
    intro row h
    cases row with
    | nil => simp at h
    | cons v row =>
      rw [List.length_cons, List.length_cons, Nat.succ_inj] at h
      rw [List.zip_cons_cons, List.filter_cons, List.filter_cons]
      by_cases hx : x ∈ ds
      · rw [if_neg (by simp [hx]), if_neg (by simp [hx])]
        exact ih row h
      · rw [if_pos (by simp [hx]), if_pos (by simp [hx])]
        rw [List.map_cons, List.length_cons, List.length_cons, ih row h]

theorem dropCols_ok_spec (t : Table) (ds : List String) (hwf : t.WF)
    (hall : ∀ c ∈ ds, c ∈ t.cols) :
    ∃ t2, t.dropCols ds = Except.ok t2 ∧
      t2.cols = t.cols.filter (fun c => c ∉ ds) ∧ t2.WF ∧
      ∀ c, c ∈ t.cols → c ∉ ds → t2.getCol c = t.getCol c := by
  refine ⟨⟨t.cols.filter (fun c => c ∉ ds),
    t.rows.map (fun row => ((t.cols.zip row).filter (fun p => p.1 ∉ ds)).map Prod.snd)⟩,
    ?_, rfl, ?_, ?_⟩
  · unfold Table.dropCols
    rw [if_pos]
    rw [List.all_eq_true]
    intro c hcd
    simpa using hall c hcd
  · intro row hrow
    rcases List.mem_map.mp hrow with ⟨row0, hrow0, hr⟩
    rw [← hr]
    exact dropRow_length t.cols row0 (hwf row0 hrow0)
  · intro c hct hcd
    have hcf : c ∈ t.cols.filter (fun c => c ∉ ds) := by
      rw [List.mem_filter]
      exact ⟨hct, by simpa using hcd⟩
    unfold Table.getCol
    rw [if_pos hcf, if_pos hct]
    show some _ = some _
    rw [List.map_map]
    congr 1
    apply List.map_congr_left
    intro row hrow
    exact cellAt_dropRow hcd t.cols row (hwf row hrow)

theorem dropCols_err (t : Table) (ds : List String) (h : ¬∀ c ∈ ds, c ∈ t.cols) :
    t.dropCols ds = Except.error Err.keyError := by
  unfold Table.dropCols
  rw [if_neg]
  intro hall
  apply h
  intro c hcd
  have := List.all_eq_true.mp hall c hcd
  simpa using this

/-- C1, counterexample: a two-page chain hangs off `main.py`'s request
URL, yet its `fetch_json` returns only the first page's results, not
the concatenation of every page's `results`, so the claim is false for
that variant. -/
theorem c1_counterexample :
    Chain (fun u => if u = "x/y/" then
        PageResponse.page [[("n", Value.num 1)]] (some "b2")
      else if u = "b2" then PageResponse.page [[("n", Value.num 2)]] none
      else PageResponse.failure) "x/y/" [[[("n", Value.num 1)]], [[("n", Value.num 2)]]] ∧
    fetch_json_main (fun u => if u = "x/y/" then
        PageResponse.page [[("n", Value.num 1)]] (some "b2")
      else if u = "b2" then PageResponse.page [[("n", Value.num 2)]] none
      else PageResponse.failure) "x" "y" = Except.ok [[("n", Value.num 1)]] ∧
    ([[("n", Value.num 1)]] : List Record) ≠
      [[[("n", Value.num 1)]], [[("n", Value.num 2)]]].flatten :=
  ⟨Chain.step "x/y/" "b2" [[("n", Value.num 1)]] [[[("n", Value.num 2)]]] (by decide)
      (Chain.last "b2" [[("n", Value.num 2)]] (by decide)),
    rfl, by decide⟩

/-- C1 (amended): the `swapi_manager.py` `fetch_json` follows each
page's `next` link until it is absent or null and returns the
concatenation of every page's `results`, page order and within-page
order preserved; the `main.py` `fetch_json` issues a single request and
returns only that first response's `results`, never following `next`. -/
theorem c1_pagination :
    (∀ (env : Env) (fuel : Nat) (base ep : String) (pss : List (List Record)),
      Chain env (base ++ ep) pss → pss.length ≤ fuel →
        fetch_json env fuel base ep = Except.ok pss.flatten) ∧
    (∀ (env : Env) (base ep : String) (rs : List Record) (next : Option String),
      env (base ++ "/" ++ ep ++ "/") = PageResponse.page rs next →
        fetch_json_main env base ep = Except.ok rs) := by
  constructor
  · intro env fuel base ep pss hch hle
    exact fetch_json_chain hch hle
  · intro env base ep rs next henv
    unfold fetch_json_main
    rw [henv]

/-- C1, witness: the amended theorem evaluated on a concrete two-page
chain. -/
theorem c1_pagination_witness :
    fetch_json (fun u => if u = "xy" then
        PageResponse.page [[("n", Value.num 1)]] (some "b2")
      else if u = "b2" then PageResponse.page [[("n", Value.num 2)]] none
      else PageResponse.failure) 2 "x" "y"
      = Except.ok [[[("n", Value.num 1)]], [[("n", Value.num 2)]]].flatten :=
  c1_pagination.1 (fun u => if u = "xy" then
        PageResponse.page [[("n", Value.num 1)]] (some "b2")
      else if u = "b2" then PageResponse.page [[("n", Value.num 2)]] none
      else PageResponse.failure) 2 "x" "y" [[[("n", Value.num 1)]], [[("n", Value.num 2)]]]
    (Chain.step "xy" "b2" [[("n", Value.num 1)]] [[[("n", Value.num 2)]]] (by decide)
      (Chain.last "b2" [[("n", Value.num 2)]] (by decide)))
    (by decide)

/-- C3, counterexample: with no processor registered, the
`swapi_manager.py` `fetch_entity` returns normally (no exception) after
fetching, leaving the store unchanged — the claim that it always raises
is false for that variant. -/
theorem c3_counterexample :
    fetch_entity (fun _ => PageResponse.page [] none) 1 ⟨"x", [], []⟩ "people"
      = (Except.ok (), ⟨"x", [], []⟩) ∧
    lookupA (⟨"x", [], []⟩ : ManagerState).processors "people" = none :=
  ⟨rfl, rfl⟩

/-- C3 (amended): for an entity name with no registered processor,
`main.py`'s `fetch_entity` raises the unregistered-entity error
(`ValueError`) and leaves the store unchanged; `swapi_manager.py`'s
`fetch_entity` also leaves the store unchanged but returns normally
whenever the page fetch succeeds, raising nothing. -/
theorem c3_unregistered :
    ∀ (env : Env) (st : ManagerState) (ep : String), lookupA st.processors ep = none →
      fetch_entity_main env st ep = (Except.error Err.unregistered, st) ∧
      ∀ fuel : Nat, (fetch_entity env fuel st ep).2 = st ∧
        ∀ js, fetch_json env fuel st.baseUrl ep = Except.ok js →
          fetch_entity env fuel st ep = (Except.ok (), st) := by
  intro env st ep h
  exact ⟨fetch_entity_main_unreg env st ep h, fun fuel =>
    ⟨(fetch_entity_unreg env fuel st ep h).1, (fetch_entity_unreg env fuel st ep h).2⟩⟩

/-- C3, witness: the amended theorem evaluated on a concrete
empty-registry manager. -/
theorem c3_unregistered_witness :
    fetch_entity_main (fun _ => PageResponse.page [] none) ⟨"x", [], []⟩ "people"
      = (Except.error Err.unregistered, ⟨"x", [], []⟩) ∧
    fetch_entity (fun _ => PageResponse.page [] none) 1 ⟨"x", [], []⟩ "people"
      = (Except.ok (), ⟨"x", [], []⟩) :=
  ⟨(c3_unregistered (fun _ => PageResponse.page [] none) ⟨"x", [], []⟩ "people" rfl).1,
    ((c3_unregistered (fun _ => PageResponse.page [] none) ⟨"x", [], []⟩ "people" rfl).2 1).2
      [] rfl⟩

/-- C7: a failing page anywhere in the chain makes `fetch_json` return
the network error (no partial sequence), the error propagates through
`fetch_entity`, and the store is exactly the one before the call. -/
theorem c7_network_abort :
    ∀ (env : Env) (fuel n : Nat) (st : ManagerState) (ep : String),
      FailChain env (st.baseUrl ++ ep) n → n < fuel →
        fetch_json env fuel st.baseUrl ep = Except.error Err.network ∧
        fetch_entity env fuel st ep = (Except.error Err.network, st) := by
  intro env fuel n st ep hch hlt
  have hf := fetch_json_fail hch hlt
  exact ⟨hf, fetch_entity_network env fuel st ep hf⟩

/-- C7, witness: the theorem evaluated on a chain whose second page
fails. -/
theorem c7_network_abort_witness :
    fetch_json (fun u => if u = "xy" then
        PageResponse.page [[("n", Value.num 1)]] (some "b2")
      else PageResponse.failure) 2 "x" "y" = Except.error Err.network ∧
    fetch_entity (fun u => if u = "xy" then
        PageResponse.page [[("n", Value.num 1)]] (some "b2")
      else PageResponse.failure) 2 ⟨"x", [("old", ⟨[], []⟩)], []⟩ "y"
      = (Except.error Err.network, ⟨"x", [("old", ⟨[], []⟩)], []⟩) :=
  c7_network_abort (fun u => if u = "xy" then
        PageResponse.page [[("n", Value.num 1)]] (some "b2")
      else PageResponse.failure) 2 1 ⟨"x", [("old", ⟨[], []⟩)], []⟩ "y"
    (FailChain.step "xy" "b2" [[("n", Value.num 1)]] 0 (by decide)
      (FailChain.here "b2" (by decide)))
    (by decide)

/-- C8: in every reachable manager state the `data` dict holds at most
one table per entity name (its key list has no duplicates); a
successful `fetch_entity` either leaves `data` unchanged or assigns one
entry via `setA`; assigning an existing key replaces its table in
place, keeping every other entry and the key order, while a new key is
appended at the end, so iteration order is first-fetch order; and
export reads exactly that dict in that order. -/
theorem c8_store_invariant :
    (∀ (env : Env) (st : ManagerState), Reachable env st → (st.data.map Prod.fst).Nodup) ∧
    (∀ (env : Env) (fuel : Nat) (st : ManagerState) (ep : String),
      (fetch_entity env fuel st ep).2.data = st.data ∨
        ∃ t, (fetch_entity env fuel st ep).2.data = setA st.data ep t) ∧
    (∀ (l : List (String × Table)) (k : String) (t : Table), k ∈ l.map Prod.fst →
      (setA l k t).map Prod.fst = l.map Prod.fst ∧ lookupA (setA l k t) k = some t ∧
        ∀ k2, k2 ≠ k → lookupA (setA l k t) k2 = lookupA l k2) ∧
    (∀ (l : List (String × Table)) (k : String) (t : Table), k ∉ l.map Prod.fst →
      setA l k t = l ++ [(k, t)]) ∧
    (∀ st : ManagerState, save_to_excel st =
      st.data.map (fun p => ⟨pyCapitalize p.1, p.2.cols, p.2.rows⟩)) :=
  ⟨fun _ _ h => reachable_nodup h,
    fun env fuel st ep => fetch_entity_data env fuel st ep,
    fun l k t hk =>
      ⟨keys_setA_of_mem t hk, lookupA_setA_self l k t, fun _ h2 => lookupA_setA_ne t h2⟩,
    fun _ _ t hk => setA_of_notMem t hk,
    fun _ => rfl⟩

/-- C8, witness: the invariant parts evaluated on concrete states — the
initial state's keys, and replacement of an existing entry. -/
theorem c8_store_invariant_witness :
    ((⟨"x", [], []⟩ : ManagerState).data.map Prod.fst).Nodup ∧
    (setA [("a", (⟨[], []⟩ : Table))] "a" (⟨["c"], []⟩ : Table)).map Prod.fst
        = [("a", (⟨[], []⟩ : Table))].map Prod.fst ∧
    lookupA (setA [("a", (⟨[], []⟩ : Table))] "a" (⟨["c"], []⟩ : Table)) "a"
        = some ⟨["c"], []⟩ :=
  ⟨c8_store_invariant.1 (fun _ => PageResponse.failure) ⟨"x", [], []⟩ (Reachable.init "x"),
    (c8_store_invariant.2.2.1 [("a", (⟨[], []⟩ : Table))] "a" ⟨["c"], []⟩ (by decide)).1,
    (c8_store_invariant.2.2.1 [("a", (⟨[], []⟩ : Table))] "a" ⟨["c"], []⟩ (by decide)).2.1⟩

/-- C9: export produces exactly one sheet per stored table, in store
order; each sheet is named from the entity name (`str.capitalize` in
the `swapi_manager.py` variant, verbatim in the `main.py` variant), its
first row is the table's column names in column order, and its
remaining rows are the table's rows in table order. -/
theorem c9_export_layout :
    ∀ st : ManagerState,
      (save_to_excel st).length = st.data.length ∧
      List.Forall₂ (fun (p : String × Table) (sh : Sheet) =>
        sh.sheetName = pyCapitalize p.1 ∧ sh.header = p.2.cols ∧ sh.body = p.2.rows)
        st.data (save_to_excel st) ∧
      (save_to_excel_main st).length = st.data.length ∧
      List.Forall₂ (fun (p : String × Table) (sh : Sheet) =>
        sh.sheetName = p.1 ∧ sh.header = p.2.cols ∧ sh.body = p.2.rows)
        st.data (save_to_excel_main st) := by
  intro st
  refine ⟨by simp [save_to_excel], ?_, by simp [save_to_excel_main], ?_⟩
  · unfold save_to_excel
    rw [List.forall₂_map_right_iff]
    rw [List.forall₂_same]
    intro p _
    exact ⟨rfl, rfl, rfl⟩
  · unfold save_to_excel_main
    rw [List.forall₂_map_right_iff]
    rw [List.forall₂_same]
    intro p _
    exact ⟨rfl, rfl, rfl⟩

/-- C10: whenever `apply_filter` raises (its first component is an
error), the manager state after the call is exactly the state before
it — the pandas `drop` computes the reduced table before installing it,
so a `KeyError` leaves the stored table untouched. -/
theorem c10_filter_atomic :
    ∀ (st : ManagerState) (ep : String) (cs : List String) (e : Err),
      (apply_filter st ep cs).1 = Except.error e → (apply_filter st ep cs).2 = st :=
  fun st ep cs e h => apply_filter_error_snd st ep cs e h

/-- C10, witness: the theorem evaluated on a stored table and a drop
list naming an absent column. -/
theorem c10_filter_atomic_witness :
    (apply_filter ⟨"x", [("people", ⟨["a"], [[Value.num 1]]⟩)], []⟩ "people" ["z"]).2
      = ⟨"x", [("people", ⟨["a"], [[Value.num 1]]⟩)], []⟩ :=
  c10_filter_atomic ⟨"x", [("people", ⟨["a"], [[Value.num 1]]⟩)], []⟩ "people" ["z"]
    Err.keyError rfl

/-- C2, counterexample: for a stored table with columns a, b, c,
dropping the set containing b and the unknown column z raises
`KeyError` (pandas `drop` defaults to `errors='raise'`) and changes
nothing, instead of yielding the claimed table with columns a, c — the
claim that unknown columns are ignored without error is false. -/
theorem c2_counterexample :
    (apply_filter ⟨"x", [("people", ⟨["a", "b", "c"],
        [[Value.num 1, Value.num 2, Value.num 3]]⟩)], []⟩ "people" ["b", "z"]).1
      = Except.error Err.keyError ∧
    (apply_filter ⟨"x", [("people", ⟨["a", "b", "c"],
        [[Value.num 1, Value.num 2, Value.num 3]]⟩)], []⟩ "people" ["b", "z"]).2
      = ⟨"x", [("people", ⟨["a", "b", "c"], [[Value.num 1, Value.num 2, Value.num 3]]⟩)], []⟩ :=
  ⟨rfl, rfl⟩

/-- C2 (amended): when every listed column is present in the stored
table, `apply_filter` removes exactly those columns from the column
set and from every row, leaving the remaining columns' values
unchanged; when any listed column is absent it raises `KeyError` and
leaves the state unchanged (it does not ignore unknown columns). -/
theorem c2_column_drop :
    ∀ (st : ManagerState) (ep : String) (cs : List String) (t : Table),
      lookupA st.data ep = some t → t.WF →
      ((∀ c ∈ cs, c ∈ t.cols) →
        ∃ t2, apply_filter st ep cs = (Except.ok (), { st with data := setA st.data ep t2 }) ∧
          t2.cols = t.cols.filter (fun c => c ∉ cs) ∧ t2.WF ∧
          ∀ c, c ∈ t.cols → c ∉ cs → t2.getCol c = t.getCol c) ∧
      ((¬∀ c ∈ cs, c ∈ t.cols) → apply_filter st ep cs = (Except.error Err.keyError, st)) := by
  intro st ep cs t hl hwf
  constructor
  · intro hall
    rcases dropCols_ok_spec t cs hwf hall with ⟨t2, hok, hcols, hwf2, hget⟩
    refine ⟨t2, ?_, hcols, hwf2, hget⟩
    unfold apply_filter
    rw [hl]
    show (match t.dropCols cs with
      | Except.error e => (Except.error e, st)
      | Except.ok t2 =>
        (Except.ok (), { st with data := setA st.data ep t2 })) = _
    rw [hok]
  · intro hnall
    unfold apply_filter
    rw [hl]
    show (match t.dropCols cs with
      | Except.error e => (Except.error e, st)
      | Except.ok t2 =>
        (Except.ok (), { st with data := setA st.data ep t2 })) = _
    rw [dropCols_err t cs hnall]

/-- C2, witness: the amended theorem evaluated on a table with columns
a, b, dropping b. -/
theorem c2_column_drop_witness :
    ∃ t2, apply_filter (⟨"x", [("p", ⟨["a", "b"], [[Value.num 1, Value.num 2]]⟩)], []⟩ :
        ManagerState) "p" ["b"]
        = (Except.ok (), { (⟨"x", [("p", ⟨["a", "b"], [[Value.num 1, Value.num 2]]⟩)], []⟩ :
            ManagerState) with
            data := setA [("p", ⟨["a", "b"], [[Value.num 1, Value.num 2]]⟩)] "p" t2 }) ∧
      t2.cols = (["a", "b"] : List String).filter (fun c => c ∉ (["b"] : List String)) ∧
      t2.WF ∧
      ∀ c, c ∈ (⟨["a", "b"], [[Value.num 1, Value.num 2]]⟩ : Table).cols →
        c ∉ (["b"] : List String) →
        Table.getCol t2 c = Table.getCol ⟨["a", "b"], [[Value.num 1, Value.num 2]]⟩ c := by
  exact (c2_column_drop ⟨"x", [("p", ⟨["a", "b"], [[Value.num 1, Value.num 2]]⟩)], []⟩ "p"
    ["b"] ⟨["a", "b"], [[Value.num 1, Value.num 2]]⟩ rfl (by decide)).1 (by decide)

/-- C4, counterexample: the empty record sequence vacuously satisfies
"every record has a `population` field", yet the Planet transform
raises (`pd.DataFrame([])` has no `population` column, so the column
lookup fails) instead of returning a table. -/
theorem c4_counterexample :
    planetsProcess [] = none ∧ ∀ r ∈ ([] : List Record), "population" ∈ recKeys r :=
  ⟨rfl, by simp⟩

/-- C4 (amended): for every nonempty record sequence in which every
record has a `population` field, the Planet transform returns a table
whose `population` column holds, row by row, the numeric value parsed
from the input, with unparsable values coerced to null rather than
aborting; on the inputs "1000", "unknown", "42" it yields 1000, null,
42 in that order. -/
theorem c4_numeric_coercion :
    (∀ js : List Record, js ≠ [] → (∀ r ∈ js, "population" ∈ recKeys r) →
      ∃ t, planetsProcess js = some t ∧
        t.getCol "population" =
          some (js.map (fun r => toNumericVal ((getField r "population").getD Value.null)))) ∧
    planetsProcess [[("population", Value.str "1000")], [("population", Value.str "unknown")],
        [("population", Value.str "42")]] =
      some ⟨["population"], [[Value.num 1000], [Value.null], [Value.num 42]]⟩ := by
  constructor
  · intro js hne hall
    have hmem : "population" ∈ unionKeys js := by
      cases js with
      | nil => exact absurd rfl hne
      | cons r js =>
        exact mem_unionKeys_of (List.mem_cons_self r js) (hall r (List.mem_cons_self r js))
    exact ⟨_, planetsProcess_eq hmem, getCol_process_col js "population" _ hmem⟩
  · decide

/-- C4, witness: the amended theorem evaluated on a one-record input. -/
theorem c4_numeric_coercion_witness :
    ∃ t, planetsProcess [[("population", Value.str "7")]] = some t ∧
      t.getCol "population" = some ([[("population", Value.str "7")]].map
        (fun r => toNumericVal ((getField r "population").getD Value.null))) :=
  c4_numeric_coercion.1 [[("population", Value.str "7")]] (by decide) (by decide)

/-- C5, counterexample: a sequence in which the second record lacks
`name` does not make the Person transform raise — because the first
record supplies the `name` column, the transform returns a table, with
null standing in for the missing values. -/
theorem c5_counterexample :
    peopleProcess [[("name", Value.str "Luke")], [("foo", Value.str "x")]] =
      some ⟨["name", "foo", "full_name"],
        [[Value.str "Luke", Value.null, Value.str "Luke"],
         [Value.null, Value.str "x", Value.null]]⟩ ∧
    getField [("foo", Value.str "x")] "name" = none :=
  ⟨by decide, rfl⟩

/-- C5 (amended): the Person transform raises exactly when no record
has a `name` field; otherwise it returns a table in which each row
copies its record's fields verbatim (fields other than the derived
column keep their input values, absent fields become null) and the
derived `full_name` cell equals that row's `name` value. -/
theorem c5_person_transform :
    ∀ js : List Record,
      ("name" ∉ unionKeys js → peopleProcess js = none) ∧
      ("name" ∈ unionKeys js → ∃ t, peopleProcess js = some t ∧
        List.Forall₂ (fun (r : Record) (row : List Value) =>
          (∀ k ∈ recKeys r, k ≠ "full_name" →
            cellAt t.cols k row = (getField r k).getD Value.null) ∧
          cellAt t.cols "full_name" row = (getField r "name").getD Value.null)
          js t.rows) := by
  intro js
  refine ⟨fun h => peopleProcess_eq_none h, fun h => ?_⟩
  refine ⟨_, peopleProcess_eq h, ?_⟩
  have hcols : ((toDataFrame js).setColVals "full_name"
      (js.map (fun r => (getField r "name").getD Value.null))).cols =
      if "full_name" ∈ unionKeys js then unionKeys js
      else unionKeys js ++ ["full_name"] :=
    setColVals_cols (toDataFrame js) "full_name" _
  rw [hcols, setColVals_toDataFrame_rows, List.forall₂_map_right_iff, List.forall₂_same]
  intro r hr
  constructor
  · intro k hk hkfn
    have hm := cellAt_setRowVal (unionKeys js)
      (fun c => (getField r c).getD Value.null) "full_name" k
      ((getField r "name").getD Value.null) (Or.inl (mem_unionKeys_of hr hk))
    rw [if_neg hkfn] at hm
    exact hm
  · have hm := cellAt_setRowVal (unionKeys js)
      (fun c => (getField r c).getD Value.null) "full_name" "full_name"
      ((getField r "name").getD Value.null) (Or.inr rfl)
    rw [if_pos rfl] at hm
    exact hm

/-- C5, witness: the amended theorem evaluated on a one-record input
that has a `name` field. -/
theorem c5_person_transform_witness :
    ∃ t, peopleProcess [[("name", Value.str "L")]] = some t ∧
      List.Forall₂ (fun (r : Record) (row : List Value) =>
        (∀ k ∈ recKeys r, k ≠ "full_name" →
          cellAt t.cols k row = (getField r k).getD Value.null) ∧
        cellAt t.cols "full_name" row = (getField r "name").getD Value.null)
        [[("name", Value.str "L")]] t.rows :=
  (c5_person_transform [[("name", Value.str "L")]]).2 (by decide)

/-- C6: every processor variant, whenever it succeeds, returns exactly
one output row per input record, row `i` computed from record `i`
alone — rows are never dropped, added or reordered, only columns are
added or transformed. -/
theorem c6_row_preservation :
    ∀ (k : ProcKind) (js : List Record) (t : Table), runProc k js = some t →
      t.rows.length = js.length ∧ t.rows = js.map (procRowFn k (unionKeys js)) := by
  intro k js t h
  have hrows : t.rows = js.map (procRowFn k (unionKeys js)) := by
    cases k with
    | people =>
      by_cases hm : "name" ∈ unionKeys js
      · rw [show runProc ProcKind.people js = peopleProcess js from rfl,
          peopleProcess_eq hm] at h
        cases Option.some.inj h
        exact setColVals_toDataFrame_rows js "full_name" _
      · rw [show runProc ProcKind.people js = peopleProcess js from rfl,
          peopleProcess_eq_none hm] at h
        cases h
    | planets =>
      by_cases hm : "population" ∈ unionKeys js
      · rw [show runProc ProcKind.planets js = planetsProcess js from rfl,
          planetsProcess_eq hm] at h
        cases Option.some.inj h
        exact setColVals_toDataFrame_rows js "population" _
      · rw [show runProc ProcKind.planets js = planetsProcess js from rfl,
          planetsProcess_eq_none hm] at h
        cases h
    | films =>
      by_cases hm : "title" ∈ unionKeys js
      · rw [show runProc ProcKind.films js = filmsProcess js from rfl,
          filmsProcess_eq hm] at h
        cases Option.some.inj h
        exact setColVals_toDataFrame_rows js "film_titles" _
      · rw [show runProc ProcKind.films js = filmsProcess js from rfl,
          filmsProcess_eq_none hm] at h
        cases h
    | filmsMain =>
      by_cases hm : "title" ∈ unionKeys js
      · rw [show runProc ProcKind.filmsMain js = filmsProcessMain js from rfl,
          filmsProcessMain_eq hm] at h
        cases Option.some.inj h
        exact setColVals_toDataFrame_rows js "film_title" _
      · rw [show runProc ProcKind.filmsMain js = filmsProcessMain js from rfl,
          filmsProcessMain_eq_none hm] at h
        cases h
  exact ⟨by rw [hrows]; simp, hrows⟩

/-- C6, witness: the theorem evaluated on a concrete one-record input
for the Person processor. -/
theorem c6_row_preservation_witness :
    ((⟨["name", "full_name"], [[Value.str "L", Value.str "L"]]⟩ : Table)).rows.length
        = ([[("name", Value.str "L")]] : List Record).length ∧
    ((⟨["name", "full_name"], [[Value.str "L", Value.str "L"]]⟩ : Table)).rows
        = ([[("name", Value.str "L")]] : List Record).map
            (procRowFn ProcKind.people (unionKeys [[("name", Value.str "L")]])) :=
  c6_row_preservation ProcKind.people [[("name", Value.str "L")]]
    ⟨["name", "full_name"], [[Value.str "L", Value.str "L"]]⟩ (by decide)
